import Mathlib

/-!
Verification of the invoice/expense ledger core: a shallow embedding of the
reconciliation engine (`handleSaveInvoice`), bulk operations, the auto-save
validator, the extraction normalizer (`handleCapture`), the extraction
service post-processing (`extractInvoiceData`), and the manual form save
(`InvoiceForm.handleSave`), together with theorems about them.

Modelling choices: JS numbers are modelled as `Int` (money, quantities and
counts; sufficient for every claim here, which only adds, subtracts,
multiplies and compares them); JS `undefined` is `Option`; generated UUIDs
are passed in as explicit parameters; `Array.prototype.find` / `findIndex`
are modelled by the recursive `jsFind` / `findIdxO` below; `Date` values are
opaque strings; JS string operations (`trim`, `toLowerCase`) are modelled on
the underlying character lists.
-/

namespace Ledger

/-- Model of `Array.prototype.find`: first element satisfying the predicate. -/
def jsFind (p : α → Bool) : List α → Option α
  | [] => none
  | x :: xs => if p x then some x else jsFind p xs

/-- Model of `Array.prototype.findIndex` (as an `Option Nat` instead of `-1`). -/
def findIdxO (p : α → Bool) : List α → Option Nat
  | [] => none
  | x :: xs => if p x then some 0 else (findIdxO p xs).map (fun n => n + 1)

/-- Replace the element at index `j` by its image under `f` (model of
`arr[j] = f(arr[j])`); out-of-range indices leave the list unchanged. -/
def modifyAt (f : α → α) : Nat → List α → List α
  | _, [] => []
  | 0, x :: xs => f x :: xs
  | n + 1, x :: xs => x :: modifyAt f n xs

/-- Invoice line item (src/types.ts `InvoiceItem`). -/
structure InvoiceItem where
  id : String
  description : String
  quantity : Int
  rate : Int
deriving DecidableEq

/-- Stored invoice status (src/types.ts `InvoiceStatus`): only PAID and
UNPAID exist as stored values. -/
inductive InvoiceStatus where
  | PAID
  | UNPAID
deriving DecidableEq

/-- Invoice entry type (src/types.ts `Invoice.type`). -/
inductive EntryType where
  | expense
  | income
deriving DecidableEq

/-- Stored invoice (src/types.ts `Invoice`). -/
structure Invoice where
  id : String
  vendorName : String
  profileId : Option String
  date : String
  dueDate : String
  items : List InvoiceItem
  total : Int
  category : String
  tags : List String
  type : EntryType
  currency : String
  status : InvoiceStatus
  updatedAt : String
deriving DecidableEq

/-- Vendor profile aggregate (src/types.ts `CustomerProfile`). -/
structure CustomerProfile where
  id : String
  name : String
  totalSpent : Int
  invoiceCount : Int
  lastInvoiceDate : String
deriving DecidableEq

/-- The ledger state owned by App: the invoice and profile collections. -/
structure AppState where
  invoices : List Invoice
  profiles : List CustomerProfile
deriving DecidableEq

/-- JS whitespace test for the characters relevant here. -/
def isWS (c : Char) : Bool :=
  c == ' ' || c == '\t' || c == '\n' || c == '\r'

/-- The character list of a string with leading and trailing whitespace
removed (model of `String.prototype.trim`, kept on `List Char` so that it
evaluates by structural recursion). -/
def trimList (l : List Char) : List Char :=
  ((l.dropWhile isWS).reverse.dropWhile isWS).reverse

/-- Model of `s.trim()`. -/
def trimStr (s : String) : String :=
  ⟨trimList s.data⟩

/-- Model of `s.trim() === ''`: the string consists only of whitespace. -/
def trimBlank (s : String) : Bool :=
  (trimList s.data).isEmpty

/-- Model of `s.toLowerCase()` on the character list. -/
def lowerList (s : String) : List Char :=
  s.data.map Char.toLower

/-- Case-insensitive vendor-name comparison used throughout App.tsx:
`a.toLowerCase() === b.toLowerCase()`. Note: no trimming. -/
def nameMatches (a b : String) : Bool :=
  lowerList a == lowerList b

/-- Step 1 of `handleSaveInvoice` (src/App.tsx lines 129-139): if a previous
version of the invoice exists, undo its contribution to the profile whose
name matches the previous vendor name case-insensitively, flooring the
decremented count and spend at 0. -/
def undoStep (ps : List CustomerProfile) (old : Invoice) : List CustomerProfile :=
  match findIdxO (fun p => nameMatches p.name old.vendorName) ps with
  | some j =>
      modifyAt
        (fun p =>
          { p with
            invoiceCount := max 0 (p.invoiceCount - 1)
            totalSpent := max 0 (p.totalSpent - old.total) })
        j ps
  | none => ps

/-- Step 2 of `handleSaveInvoice` (src/App.tsx lines 141-160): credit the
profile matching the new vendor name, or create a fresh profile. Returns
the updated collection together with the assigned profile id. -/
def applyStep (ps : List CustomerProfile) (inv : Invoice) (freshId : String) :
    List CustomerProfile × String :=
  match findIdxO (fun p => nameMatches p.name inv.vendorName) ps with
  | some j =>
      (modifyAt
        (fun p =>
          { p with
            invoiceCount := p.invoiceCount + 1
            totalSpent := p.totalSpent + inv.total
            lastInvoiceDate := inv.date })
        j ps,
       match ps.get? j with
       | some p => p.id
       | none => freshId)
  | none =>
      (ps ++ [{ id := freshId, name := inv.vendorName, totalSpent := inv.total,
                invoiceCount := 1, lastInvoiceDate := inv.date }],
       freshId)

/-- Step 3 of `handleSaveInvoice` (src/App.tsx line 162): drop profiles whose
count is 0 unless their name matches the just-saved vendor. -/
def sweep (ps : List CustomerProfile) (inv : Invoice) : List CustomerProfile :=
  ps.filter (fun p => decide (0 < p.invoiceCount) || nameMatches p.name inv.vendorName)

/-- The profile reconciliation performed inside `handleSaveInvoice`:
undo the previous version's contribution, credit the new vendor, sweep. -/
def reconcileProfiles (ps : List CustomerProfile) (inv : Invoice)
    (existing : Option Invoice) (freshId : String) :
    List CustomerProfile × String :=
  let ps1 := match existing with
    | some old => undoStep ps old
    | none => ps
  let pr := applyStep ps1 inv freshId
  (sweep pr.1 inv, pr.2)

/-- src/App.tsx `handleSaveInvoice`. `freshProfileId` stands for the
`crypto.randomUUID()` used when a new profile is created, `now` for
`new Date().toISOString()`. -/
def handleSaveInvoice (s : AppState) (invoice : Invoice)
    (freshProfileId now : String) : AppState :=
  let existing := jsFind (fun i => i.id == invoice.id) s.invoices
  let pr := reconcileProfiles s.profiles invoice existing freshProfileId
  let stored := { invoice with profileId := some pr.2, updatedAt := now }
  { invoices :=
      match existing with
      | some _ => s.invoices.map (fun i => if i.id == invoice.id then stored else i)
      | none => stored :: s.invoices,
    profiles := pr.1 }

/-- The profile id assigned to the saved invoice by the reconciliation. -/
def assignedProfileId (s : AppState) (invoice : Invoice) (freshProfileId : String) :
    String :=
  (reconcileProfiles s.profiles invoice
    (jsFind (fun i => i.id == invoice.id) s.invoices) freshProfileId).2

/-- src/App.tsx `handleBulkDelete` (the confirmed branch): remove matching
invoices; profiles are untouched. -/
def handleBulkDelete (s : AppState) (ids : List String) : AppState :=
  { s with invoices := s.invoices.filter (fun i => !(ids.contains i.id)) }

/-- src/App.tsx `handleBulkMarkPaid`: set status PAID and refresh updatedAt
on matching invoices. -/
def handleBulkMarkPaid (s : AppState) (ids : List String) (now : String) : AppState :=
  { s with
    invoices := s.invoices.map (fun i =>
      if ids.contains i.id then { i with status := InvoiceStatus.PAID, updatedAt := now }
      else i) }

/-- A partially populated invoice draft (the TS `Partial` of `Invoice`,
as held in `scannedData` and passed to `validateInvoice`). A JS field that
is `undefined` is `none`. -/
structure InvoiceDraft where
  id : Option String := none
  vendorName : Option String := none
  profileId : Option String := none
  date : Option String := none
  dueDate : Option String := none
  items : Option (List InvoiceItem) := none
  total : Option Int := none
  category : Option String := none
  tags : Option (List String) := none
  type : Option EntryType := none
  currency : Option String := none
  status : Option InvoiceStatus := none
  updatedAt : Option String := none
deriving DecidableEq

/-- src/App.tsx `validateInvoice`, the auto-save gate. JS falsiness of a
string (`undefined` or the empty string) is modelled by the matching
`Option` cases. -/
def validateInvoice (data : InvoiceDraft) : Bool :=
  let vendorBad :=
    match data.vendorName with
    | none => true
    | some v => v == "" || trimBlank v
  if vendorBad then false
  else if (data.date == none || data.date == some "") ||
          (data.dueDate == none || data.dueDate == some "") then false
  else
    match data.items with
    | none => false
    | some items =>
        if items.length == 0 then false
        else items.all (fun it =>
          it.description != "" && decide (0 < it.quantity) && decide (0 ≤ it.rate))

/-- One raw line item of the AI extraction payload (services/geminiService
response items). -/
structure RawItem where
  description : Option String := none
  quantity : Option Int := none
  rate : Option Int := none
deriving DecidableEq

/-- The AI extraction payload as consumed by `handleCapture`. -/
structure RawPayload where
  vendorName : Option String := none
  date : Option String := none
  dueDate : Option String := none
  currency : Option String := none
  category : Option String := none
  tags : Option (List String) := none
  items : List RawItem := []
deriving DecidableEq

/-- Result of the extraction service call: a payload or a thrown error. -/
inductive ExtractResult where
  | ok (payload : RawPayload)
  | err (msg : String)
deriving DecidableEq

/-- src/services/geminiService.ts `extractInvoiceData`, after the network
call: `responseText` models `response.text` and `parsed` models the
outcome of `JSON.parse` on it (`none` = parse failure). The inner throw for
a missing vendor name is caught by the surrounding catch and rethrown with
the generic analysis-failure message, which this definition mirrors. -/
def extractInvoiceData (responseText : Option String) (parsed : Option RawPayload) :
    ExtractResult :=
  if (match responseText with
      | none => true
      | some t => trimBlank t) then
    ExtractResult.err ("OCR Failed: No readable content found. Please ensure the invoice is centered and legible.")
  else
    match parsed with
    | none =>
        ExtractResult.err ("Analysis failed: The invoice layout was too complex to parse automatically. Manual entry is required.")
    | some p =>
        if p.vendorName == none || p.vendorName == some "" then
          ExtractResult.err ("Analysis failed: The invoice layout was too complex to parse automatically. Manual entry is required.")
        else ExtractResult.ok p

/-- Pair each element with its index, starting from `n` (model of the index
argument of `Array.prototype.map`). -/
def withIdx (n : Nat) : List α → List (Nat × α)
  | [] => []
  | x :: xs => (n, x) :: withIdx (n + 1) xs

/-- Formatting of one extracted item in `handleCapture`: fresh id, JS-falsy
description defaults to "Item", falsy (missing or zero) quantity defaults
to 1, missing rate defaults to 0. `itemIds` supplies the generated UUIDs. -/
def formatItem (itemIds : Nat → String) (idx : Nat) (it : RawItem) : InvoiceItem :=
  { id := itemIds idx,
    description := match it.description with
      | none => "Item"
      | some d => if d == "" then "Item" else d,
    quantity := match it.quantity with
      | none => 1
      | some q => if q == 0 then 1 else q,
    rate := match it.rate with
      | none => 0
      | some r => r }

/-- The formatted items of `handleCapture`. -/
def formattedItems (itemIds : Nat → String) (its : List RawItem) : List InvoiceItem :=
  (withIdx 0 its).map (fun pr => formatItem itemIds pr.1 pr.2)

/-- Sum of `quantity * rate` over a list of items (the reduce used both in
`handleCapture` and in `InvoiceForm.calculateTotal`). -/
def itemsTotal (items : List InvoiceItem) : Int :=
  items.foldl (fun sum it => sum + it.quantity * it.rate) 0

/-- The `invoiceTemplate` built by src/App.tsx `handleCapture` from an
extraction payload: JS-falsy currency defaults to the preferred currency,
falsy category to "General", missing tags to the empty list; the total is
recomputed from the formatted items; status is forced UNPAID and type
expense. -/
def buildTemplate (preferredCurrency : String) (itemIds : Nat → String)
    (now : String) (data : RawPayload) : InvoiceDraft :=
  let formatted := formattedItems itemIds data.items
  { vendorName := data.vendorName,
    date := data.date,
    dueDate := data.dueDate,
    currency := some (match data.currency with
      | none => preferredCurrency
      | some c => if c == "" then preferredCurrency else c),
    items := some formatted,
    total := some (itemsTotal formatted),
    category := some (match data.category with
      | none => "General"
      | some c => if c == "" then "General" else c),
    tags := some (data.tags.getD []),
    status := some InvoiceStatus.UNPAID,
    type := some EntryType.expense,
    updatedAt := some now }

/-- The TS cast of the template to `Invoice` with a fresh id
(the spread in the auto-save call of `handleCapture`). On the auto-save
path every field below except `id` and `profileId` is populated, so the
`getD` defaults are never exercised there. -/
def draftToInvoice (d : InvoiceDraft) (invoiceId : String) : Invoice :=
  { id := invoiceId,
    vendorName := d.vendorName.getD "",
    profileId := d.profileId,
    date := d.date.getD "",
    dueDate := d.dueDate.getD "",
    items := d.items.getD [],
    total := d.total.getD 0,
    category := d.category.getD "",
    tags := d.tags.getD [],
    type := d.type.getD EntryType.expense,
    currency := d.currency.getD "",
    status := d.status.getD InvoiceStatus.UNPAID,
    updatedAt := d.updatedAt.getD "" }

/-- Where the UI lands after a capture: the dashboard after an auto-save, or
the editing form holding a draft (`scannedData`). -/
inductive AfterCapture where
  | dashboard
  | editing (draft : InvoiceDraft)
deriving DecidableEq

/-- src/App.tsx `handleCapture` after the extraction call resolved
(`res`): on success build the template; if it validates, auto-save it with
a fresh invoice id, otherwise route to the editing form; on an extraction
error route to the editing form with only status and currency preset.
Returns the new ledger state and the view routing. -/
def handleCapture (s : AppState) (preferredCurrency : String)
    (res : ExtractResult) (itemIds : Nat → String)
    (invoiceId freshProfileId now : String) : AppState × AfterCapture :=
  match res with
  | ExtractResult.err _ =>
      (s, AfterCapture.editing
        { status := some InvoiceStatus.UNPAID, currency := some preferredCurrency })
  | ExtractResult.ok data =>
      let tmpl := buildTemplate preferredCurrency itemIds now data
      if validateInvoice tmpl then
        (handleSaveInvoice s (draftToInvoice tmpl invoiceId) freshProfileId now,
         AfterCapture.dashboard)
      else (s, AfterCapture.editing tmpl)

/-- The state of the manual entry form (src/components/InvoiceForm.tsx)
at the moment Save is pressed. `initId` is `initialData?.id`. -/
structure FormState where
  vendorName : String
  date : String
  dueDate : String
  currency : String
  status : InvoiceStatus
  category : String
  tags : List String
  items : List InvoiceItem
  initId : Option String
deriving DecidableEq

/-- src/components/InvoiceForm.tsx `validate`: vendor (trimmed), both dates,
and every item (trimmed description, positive quantity, nonnegative rate)
must be present. -/
def formValidate (f : FormState) : Bool :=
  !(trimBlank f.vendorName) && !(f.date == "") && !(f.dueDate == "") &&
  !(f.items.any (fun it =>
      trimBlank it.description || decide (it.quantity ≤ 0) || decide (it.rate < 0)))

/-- src/components/InvoiceForm.tsx `handleSave`: if the form validates,
build the invoice (total recomputed from the items, vendor trimmed, type
expense) and hand it to `onSave`; otherwise do nothing. `freshId` models
the `crypto.randomUUID()` fallback for a missing (falsy) `initialData.id`. -/
def formHandleSave (f : FormState) (freshId now : String) : Option Invoice :=
  if formValidate f then
    some
      { id := match f.initId with
          | some i => if i == "" then freshId else i
          | none => freshId,
        vendorName := trimStr f.vendorName,
        profileId := none,
        date := f.date,
        dueDate := f.dueDate,
        items := f.items,
        total := itemsTotal f.items,
        category := f.category,
        tags := f.tags,
        type := EntryType.expense,
        currency := f.currency,
        status := f.status,
        updatedAt := now }
  else none

/-- The full manual save path: the form builds the invoice and, when valid,
`handleSaveInvoice` commits it; an invalid form leaves the ledger alone. -/
def formSaveOp (s : AppState) (f : FormState) (freshId freshProfileId now : String) :
    AppState :=
  match formHandleSave f freshId now with
  | some inv => handleSaveInvoice s inv freshProfileId now
  | none => s

/-! Concrete fixtures used by witnesses and counterexamples. -/

/-- An invoice for vendor Acme with total 100. -/
def scenInvA : Invoice :=
  { id := "A", vendorName := "Acme", profileId := none,
    date := "2024-01-01", dueDate := "2024-01-31",
    items := [{ id := "i1", description := "Widget", quantity := 1, rate := 100 }],
    total := 100, category := "General", tags := [], type := EntryType.expense,
    currency := "INR", status := InvoiceStatus.UNPAID, updatedAt := "t0" }

/-- The edited version of `scenInvA`: same id, vendor Beta, total 150. -/
def scenInvB : Invoice :=
  { scenInvA with
    vendorName := "Beta", date := "2024-02-01",
    items := [{ id := "i2", description := "Gadget", quantity := 1, rate := 150 }],
    total := 150 }

/-- The empty ledger. -/
def sEmpty : AppState := { invoices := [], profiles := [] }

/-- An Acme profile consistent with one saved invoice of total 100. -/
def profAcme : CustomerProfile :=
  { id := "pa", name := "Acme", totalSpent := 100, invoiceCount := 1,
    lastInvoiceDate := "2024-01-01" }

/-- A Beta profile with two invoices and spend 200. -/
def profBeta : CustomerProfile :=
  { id := "pb", name := "Beta", totalSpent := 200, invoiceCount := 2,
    lastInvoiceDate := "2024-01-15" }

/-- A ledger holding `scenInvA` and both vendor profiles. -/
def sBoth : AppState := { invoices := [scenInvA], profiles := [profAcme, profBeta] }

/-- A profile whose stored name carries a trailing space. -/
def profAcmeTrail : CustomerProfile :=
  { id := "p1", name := "Acme ", totalSpent := 100, invoiceCount := 1,
    lastInvoiceDate := "2024-01-01" }

/-- A ledger holding only the trailing-space profile. -/
def sTrail : AppState := { invoices := [], profiles := [profAcmeTrail] }

/-- A fresh invoice for vendor Acme (no trailing space), total 50. -/
def invTrim : Invoice :=
  { scenInvA with
    id := "I2", total := 50,
    items := [{ id := "i3", description := "Bolt", quantity := 1, rate := 50 }] }

/-- An extraction payload whose vendor name is whitespace-only. -/
def payloadWS : RawPayload :=
  { vendorName := some (" "), date := some ("2024-01-01"),
    dueDate := some ("2024-01-05"), currency := some ("USD"),
    category := none, tags := none,
    items := [{ description := some ("Coffee"), quantity := some 2, rate := some 3 }] }

/-- A fully populated extraction payload whose single item carries an empty
(but present) description. -/
def payloadEmptyDesc : RawPayload :=
  { vendorName := some ("Vendor"), date := some ("2024-03-01"),
    dueDate := some ("2024-03-31"), currency := some ("USD"),
    category := some ("Food"), tags := some ["lunch"],
    items := [{ description := some (""), quantity := some 2, rate := some 3 }] }

/-- A fully populated, well-formed extraction payload. -/
def payloadFull : RawPayload :=
  { vendorName := some ("Vendor"), date := some ("2024-03-01"),
    dueDate := some ("2024-03-31"), currency := some ("USD"),
    category := some ("Food"), tags := some ["lunch"],
    items := [{ description := some ("Coffee"), quantity := some 2, rate := some 3 }] }

/-- A draft whose single item has a whitespace-only description. -/
def draftWSDesc : InvoiceDraft :=
  { vendorName := some ("Vendor"), date := some ("2024-01-01"),
    dueDate := some ("2024-01-02"),
    items := some [{ id := "i1", description := " ", quantity := 1, rate := 0 }] }

/-- A form state editing the stored paid invoice of `sPaid`. -/
def formEditA : FormState :=
  { vendorName := "Acme", date := "2024-01-01", dueDate := "2024-01-31",
    currency := "INR", status := InvoiceStatus.PAID, category := "General",
    tags := [], items := [{ id := "i1", description := "Widget", quantity := 1, rate := 100 }],
    initId := some ("A") }

/-- A ledger whose stored invoice `scenInvA` is already PAID, next to an
unpaid invoice with a different id. -/
def sPaid : AppState :=
  { invoices :=
      [{ scenInvA with status := InvoiceStatus.PAID },
       { scenInvA with id := "B", vendorName := "Beta", status := InvoiceStatus.UNPAID }],
    profiles := [profAcme] }

/-- A valid form state for a brand-new invoice. -/
def formNew : FormState :=
  { vendorName := "Gamma", date := "2024-04-01", dueDate := "2024-04-30",
    currency := "INR", status := InvoiceStatus.UNPAID, category := "Travel",
    tags := ["trip"], items := [{ id := "i9", description := "Taxi", quantity := 2, rate := 7 }],
    initId := none }

/-- The invoice produced by saving `formNew` with fresh id "F" at time "t9". -/
def invNewForm : Invoice :=
  { id := "F", vendorName := "Gamma", profileId := none,
    date := "2024-04-01", dueDate := "2024-04-30",
    items := [{ id := "i9", description := "Taxi", quantity := 2, rate := 7 }],
    total := 14, category := "Travel", tags := ["trip"], type := EntryType.expense,
    currency := "INR", status := InvoiceStatus.UNPAID, updatedAt := "t9" }

/-- A draft with a valid vendor and dates but an empty items list. -/
def draftEmptyItems : InvoiceDraft :=
  { vendorName := some ("V"), date := some ("2024-01-01"),
    dueDate := some ("2024-01-02"), items := some [] }

/-- The record stored when the `formEditA` edit of the paid invoice is
saved into `sPaid` at time "t5". -/
def invPaidStored : Invoice :=
  { id := "A", vendorName := "Acme", profileId := some ("pa"),
    date := "2024-01-01", dueDate := "2024-01-31",
    items := [{ id := "i1", description := "Widget", quantity := 1, rate := 100 }],
    total := 100, category := "General", tags := [], type := EntryType.expense,
    currency := "INR", status := InvoiceStatus.PAID, updatedAt := "t5" }

/-! Helper lemmas about the JS-style list operations. -/

theorem jsFind_eq_some {p : α → Bool} {l : List α} {x : α}
    (h : jsFind p l = some x) : p x = true ∧ x ∈ l := by
  induction l with
  | nil => simp [jsFind] at h
  | cons a t ih =>
      by_cases hp : p a
      · simp [jsFind, hp] at h
        subst h
        exact ⟨hp, List.mem_cons_self a t⟩
      · simp [jsFind, hp] at h
        rcases ih h with ⟨h1, h2⟩
        exact ⟨h1, List.mem_cons_of_mem a h2⟩

theorem jsFind_map_replace {l : List Invoice} {x : String} {st : Invoice}
    (h : (jsFind (fun i => i.id == x) l).isSome = true) (hst : st.id = x) :
    jsFind (fun i => i.id == x) (l.map (fun i => if i.id == x then st else i)) =
      some st := by
  induction l with
  | nil => simp [jsFind] at h
  | cons a t ih =>
      by_cases hp : (a.id == x) = true
      · simp [jsFind, hp, hst]
      · simp only [List.map_cons, jsFind, hp, if_neg, Bool.false_eq_true, if_false]
        simp only [jsFind, hp, Bool.false_eq_true, if_false] at h
        exact ih h

theorem findIdxO_eq_none {p : α → Bool} {l : List α}
    (h : findIdxO p l = none) : ∀ x ∈ l, p x = false := by
  induction l with
  | nil => simp
  | cons a t ih =>
      by_cases hp : p a
      · simp [findIdxO, hp] at h
      · intro x hx
        simp [findIdxO, hp] at h
        rcases List.mem_cons.mp hx with rfl | hx
        · simpa using hp
        · exact ih h x hx

theorem findIdxO_eq_some_get? {p : α → Bool} {l : List α} {j : Nat}
    (h : findIdxO p l = some j) : ∃ y, l.get? j = some y ∧ p y = true := by
  induction l generalizing j with
  | nil => simp [findIdxO] at h
  | cons a t ih =>
      by_cases hp : p a
      · simp [findIdxO, hp] at h
        subst h
        exact ⟨a, rfl, hp⟩
      · simp [findIdxO, hp] at h
        rcases h with ⟨j0, hj0, rfl⟩
        rcases ih hj0 with ⟨y, hy, hpy⟩
        exact ⟨y, by simpa using hy, hpy⟩

theorem findIdxO_modifyAt {p : α → Bool} {f : α → α} (hf : ∀ y, p (f y) = p y)
    (j : Nat) (l : List α) : findIdxO p (modifyAt f j l) = findIdxO p l := by
  induction l generalizing j with
  | nil => simp [modifyAt]
  | cons a t ih =>
      cases j with
      | zero => simp [modifyAt, findIdxO, hf a]
      | succ n => simp [modifyAt, findIdxO, ih n]

theorem get?_modifyAt_self (f : α → α) (j : Nat) (l : List α) :
    (modifyAt f j l).get? j = (l.get? j).map f := by
  induction l generalizing j with
  | nil => simp [modifyAt]
  | cons a t ih =>
      cases j with
      | zero => simp [modifyAt]
      | succ n => simpa [modifyAt] using ih n

theorem get?_modifyAt_ne (f : α → α) {i j : Nat} (hij : i ≠ j) (l : List α) :
    (modifyAt f j l).get? i = l.get? i := by
  induction l generalizing i j with
  | nil => simp [modifyAt]
  | cons a t ih =>
      cases j with
      | zero =>
          cases i with
          | zero => exact absurd rfl hij
          | succ m => simp [modifyAt]
      | succ n =>
          cases i with
          | zero => simp [modifyAt]
          | succ m => simpa [modifyAt] using ih (fun hh => hij (by omega))

theorem modifyAt_modifyAt (f g : α → α) (j : Nat) (l : List α) :
    modifyAt g j (modifyAt f j l) = modifyAt (fun x => g (f x)) j l := by
  induction l generalizing j with
  | nil => simp [modifyAt]
  | cons a t ih =>
      cases j with
      | zero => simp [modifyAt]
      | succ n => simpa [modifyAt] using ih n

theorem modifyAt_eq_self {f : α → α} {j : Nat} {l : List α} {y : α}
    (hget : l.get? j = some y) (hy : f y = y) : modifyAt f j l = l := by
  induction l generalizing j with
  | nil => simp [modifyAt]
  | cons a t ih =>
      cases j with
      | zero =>
          simp only [List.get?] at hget
          cases hget
          simp [modifyAt, hy]
      | succ n =>
          simp only [List.get?] at hget
          simpa [modifyAt] using ih hget

theorem mem_modifyAt {f : α → α} {j : Nat} {l : List α} {x : α}
    (h : x ∈ modifyAt f j l) : x ∈ l ∨ ∃ y ∈ l, x = f y := by
  induction l generalizing j with
  | nil => simp [modifyAt] at h
  | cons a t ih =>
      cases j with
      | zero =>
          rcases List.mem_cons.mp h with h1 | hx
          · exact Or.inr ⟨a, List.mem_cons_self a t, h1⟩
          · exact Or.inl (List.mem_cons_of_mem a hx)
      | succ n =>
          rcases List.mem_cons.mp h with h1 | hx
          · exact Or.inl (h1 ▸ List.mem_cons_self a t)
          · rcases ih hx with hx | ⟨y, hy, hxy⟩
            · exact Or.inl (List.mem_cons_of_mem a hx)
            · exact Or.inr ⟨y, List.mem_cons_of_mem a hy, hxy⟩

theorem findIdxO_filter_first {p g : α → Bool} {l : List α} {j : Nat} {y : α}
    (h : findIdxO p l = some j) (hget : l.get? j = some y) (hg : g y = true) :
    ∃ j', findIdxO p (l.filter g) = some j' ∧ (l.filter g).get? j' = some y := by
  induction l generalizing j with
  | nil => simp [findIdxO] at h
  | cons a t ih =>
      by_cases hp : p a
      · simp [findIdxO, hp] at h
        subst h
        simp only [List.get?] at hget
        cases hget
        refine ⟨0, ?_⟩
        simp [List.filter_cons, hg, findIdxO, hp]
      · simp [findIdxO, hp] at h
        rcases h with ⟨j0, hj0, rfl⟩
        simp only [List.get?] at hget
        rcases ih hj0 hget with ⟨j', hj', hg'⟩
        by_cases hga : g a
        · refine ⟨j' + 1, by simp [List.filter_cons, hga, findIdxO, hp, hj'], ?_⟩
          simpa [List.filter_cons, hga] using hg'
        · refine ⟨j', by simp [List.filter_cons, hga, hj'], ?_⟩
          simpa [List.filter_cons, hga] using hg'

theorem findIdxO_append_last {p : α → Bool} {l : List α} {y : α}
    (h : ∀ x ∈ l, p x = false) (hy : p y = true) :
    findIdxO p (l ++ [y]) = some l.length ∧ (l ++ [y]).get? l.length = some y := by
  induction l with
  | nil => simp [findIdxO, hy]
  | cons a t ih =>
      have ha : p a = false := h a (List.mem_cons_self a t)
      have ih' := ih (fun x hx => h x (List.mem_cons_of_mem a hx))
      constructor
      · simp [findIdxO, ha, ih'.1]
      · simpa only [List.cons_append, List.length_cons, List.get?_cons_succ] using ih'.2

theorem mem_id_unique {l : List Invoice}
    (hnd : (l.map (fun i => i.id)).Nodup) {a b : Invoice}
    (ha : a ∈ l) (hb : b ∈ l) (hid : a.id = b.id) : a = b := by
  induction l with
  | nil => simp at ha
  | cons c t ih =>
      simp only [List.map_cons, List.nodup_cons] at hnd
      rcases List.mem_cons.mp ha with rfl | ha' <;>
        rcases List.mem_cons.mp hb with rfl | hb'
      · rfl
      · exact absurd (hid ▸ List.mem_map_of_mem (fun i => i.id) hb') hnd.1
      · exact absurd (hid ▸ List.mem_map_of_mem (fun i => i.id) ha') hnd.1
      · exact ih hnd.2 ha' hb'

/-! Structural lemmas about the reconciliation stages. -/

/-- After steps 2-3 of the reconciliation, the first profile matching the
saved vendor name exists, has count at least 1, spend at least the saved
total, and last-invoice date equal to the saved date; and every surviving
profile passes the sweep predicate and keeps nonnegative aggregates. -/
theorem applyStep_char (ps1 : List CustomerProfile) (inv : Invoice) (pid : String)
    (h1 : ∀ p ∈ ps1, 0 ≤ p.invoiceCount ∧ 0 ≤ p.totalSpent) (ht : 0 ≤ inv.total) :
    (∃ j q,
        findIdxO (fun p => nameMatches p.name inv.vendorName)
            (sweep (applyStep ps1 inv pid).1 inv) = some j ∧
        (sweep (applyStep ps1 inv pid).1 inv).get? j = some q ∧
        1 ≤ q.invoiceCount ∧ inv.total ≤ q.totalSpent ∧ q.lastInvoiceDate = inv.date) ∧
    (∀ p ∈ sweep (applyStep ps1 inv pid).1 inv,
        (decide (0 < p.invoiceCount) || nameMatches p.name inv.vendorName) = true ∧
        0 ≤ p.invoiceCount ∧ 0 ≤ p.totalSpent) := by
  cases hA : findIdxO (fun p => nameMatches p.name inv.vendorName) ps1 with
  | some k =>
      obtain ⟨y, hy, hpy⟩ := findIdxO_eq_some_get? hA
      have hmem_y : y ∈ ps1 := List.get?_mem hy
      have hstep : (applyStep ps1 inv pid).1 =
          modifyAt
            (fun p =>
              { p with
                invoiceCount := p.invoiceCount + 1
                totalSpent := p.totalSpent + inv.total
                lastInvoiceDate := inv.date })
            k ps1 := by
        simp [applyStep, hA]
      have hfind2 : findIdxO (fun p => nameMatches p.name inv.vendorName)
          ((applyStep ps1 inv pid).1) = some k := by
        rw [hstep]
        exact (@findIdxO_modifyAt _ (fun p => nameMatches p.name inv.vendorName)
          (fun p =>
            { p with
              invoiceCount := p.invoiceCount + 1
              totalSpent := p.totalSpent + inv.total
              lastInvoiceDate := inv.date })
          (fun z => rfl) k ps1).trans hA
      have hget2 : ((applyStep ps1 inv pid).1).get? k =
          some { y with
                 invoiceCount := y.invoiceCount + 1
                 totalSpent := y.totalSpent + inv.total
                 lastInvoiceDate := inv.date } := by
        rw [hstep, get?_modifyAt_self, hy]
        rfl
      have hgy : (fun p => decide (0 < p.invoiceCount) ||
            nameMatches p.name inv.vendorName)
          ({ y with
             invoiceCount := y.invoiceCount + 1
             totalSpent := y.totalSpent + inv.total
             lastInvoiceDate := inv.date } : CustomerProfile) = true := by
        simp only [Bool.or_eq_true]
        exact Or.inr hpy
      have hff :=
        @findIdxO_filter_first _ (fun p => nameMatches p.name inv.vendorName)
          (fun p => decide (0 < p.invoiceCount) || nameMatches p.name inv.vendorName)
          ((applyStep ps1 inv pid).1) k
          ({ y with
             invoiceCount := y.invoiceCount + 1
             totalSpent := y.totalSpent + inv.total
             lastInvoiceDate := inv.date })
          hfind2 hget2 hgy
      obtain ⟨j', hj', hg'⟩ := hff
      constructor
      · refine ⟨j', { y with
            invoiceCount := y.invoiceCount + 1
            totalSpent := y.totalSpent + inv.total
            lastInvoiceDate := inv.date }, hj', hg', ?_, ?_, rfl⟩
        · have hy1 := (h1 y hmem_y).1
          show 1 ≤ y.invoiceCount + 1
          omega
        · have hy2 := (h1 y hmem_y).2
          show inv.total ≤ y.totalSpent + inv.total
          linarith
      · intro p hp
        have hp' := List.mem_filter.mp hp
        refine ⟨hp'.2, ?_⟩
        rcases mem_modifyAt (hstep ▸ hp'.1) with hmem | ⟨z, hz, hpz⟩
        · exact h1 p hmem
        · subst hpz
          have hz' := h1 z hz
          constructor
          · show (0:Int) ≤ z.invoiceCount + 1
            omega
          · show (0:Int) ≤ z.totalSpent + inv.total
            linarith
  | none =>
      have hall : ∀ x ∈ ps1, nameMatches x.name inv.vendorName = false :=
        findIdxO_eq_none hA
      have hstep : (applyStep ps1 inv pid).1 =
          ps1 ++ [{ id := pid, name := inv.vendorName, totalSpent := inv.total,
                    invoiceCount := 1, lastInvoiceDate := inv.date }] := by
        simp [applyStep, hA]
      have hsweep : sweep (applyStep ps1 inv pid).1 inv =
          (ps1.filter (fun p => decide (0 < p.invoiceCount) ||
              nameMatches p.name inv.vendorName)) ++
            [{ id := pid, name := inv.vendorName, totalSpent := inv.total,
               invoiceCount := 1, lastInvoiceDate := inv.date }] := by
        rw [hstep]
        show (ps1 ++ _).filter _ = _
        rw [List.filter_append]
        congr 1
      have hall' : ∀ x ∈ ps1.filter (fun p => decide (0 < p.invoiceCount) ||
          nameMatches p.name inv.vendorName),
          (fun q => nameMatches q.name inv.vendorName) x = false := by
        intro x hx
        exact hall x (List.mem_filter.mp hx).1
      have hqn : (fun q => nameMatches q.name inv.vendorName)
          ({ id := pid, name := inv.vendorName, totalSpent := inv.total,
             invoiceCount := 1, lastInvoiceDate := inv.date } : CustomerProfile) = true := by
        show nameMatches inv.vendorName inv.vendorName = true
        simp [nameMatches]
      obtain ⟨hfind, hget⟩ := findIdxO_append_last hall' hqn
      constructor
      · refine ⟨_, _, by rw [hsweep]; exact hfind, by rw [hsweep]; exact hget,
          ?_, ?_, rfl⟩
        · show (1:Int) ≤ 1
          norm_num
        · show inv.total ≤ inv.total
          exact le_refl _
      · intro p hp
        rw [hsweep] at hp
        rcases List.mem_append.mp hp with hp | hp
        · have hp' := List.mem_filter.mp hp
          exact ⟨hp'.2, (h1 p hp'.1).1, (h1 p hp'.1).2⟩
        · simp only [List.mem_singleton] at hp
          subst hp
          refine ⟨by simp, by norm_num, ht⟩

/-- The saved-vendor characterization transported through a full save:
`handleSaveInvoice` leaves the profile collection with a first match for
the saved vendor carrying count at least 1, spend at least the invoice
total and last date equal to the invoice date, and every surviving profile
passes the sweep predicate with nonnegative aggregates. -/
theorem save_profiles_char (s : AppState) (inv : Invoice) (pid now : String)
    (hc : ∀ p ∈ s.profiles, 0 ≤ p.invoiceCount ∧ 0 ≤ p.totalSpent)
    (ht : 0 ≤ inv.total) :
    (∃ j q,
        findIdxO (fun p => nameMatches p.name inv.vendorName)
            (handleSaveInvoice s inv pid now).profiles = some j ∧
        (handleSaveInvoice s inv pid now).profiles.get? j = some q ∧
        1 ≤ q.invoiceCount ∧ inv.total ≤ q.totalSpent ∧ q.lastInvoiceDate = inv.date) ∧
    (∀ p ∈ (handleSaveInvoice s inv pid now).profiles,
        (decide (0 < p.invoiceCount) || nameMatches p.name inv.vendorName) = true ∧
        0 ≤ p.invoiceCount ∧ 0 ≤ p.totalSpent) := by
  have hps1 : ∀ p ∈ (match jsFind (fun i => i.id == inv.id) s.invoices with
      | some old => undoStep s.profiles old
      | none => s.profiles), 0 ≤ p.invoiceCount ∧ 0 ≤ p.totalSpent := by
    cases hE : jsFind (fun i => i.id == inv.id) s.invoices with
    | none => simpa using hc
    | some old =>
        simp only []
        intro p hp
        unfold undoStep at hp
        cases hF : findIdxO (fun q => nameMatches q.name old.vendorName) s.profiles with
        | none =>
            rw [hF] at hp
            exact hc p hp
        | some j0 =>
            rw [hF] at hp
            rcases mem_modifyAt hp with hmem | ⟨z, hz, hpz⟩
            · exact hc p hmem
            · subst hpz
              exact ⟨le_max_left _ _, le_max_left _ _⟩
  have hmain := applyStep_char _ inv pid hps1 ht
  exact hmain

/-- After a save, looking the saved id up in the invoice collection finds
exactly the stored record: the input invoice with `profileId` overwritten
by the assigned profile id and `updatedAt` overwritten by the save time. -/
theorem save_find_self (s : AppState) (inv : Invoice) (pid now : String) :
    jsFind (fun i => i.id == inv.id) (handleSaveInvoice s inv pid now).invoices =
      some { inv with profileId := some (assignedProfileId s inv pid),
                      updatedAt := now } := by
  cases hE : jsFind (fun i => i.id == inv.id) s.invoices with
  | none =>
      simp only [handleSaveInvoice, assignedProfileId, hE]
      simp [jsFind]
  | some old =>
      have hsome : (jsFind (fun i => i.id == inv.id) s.invoices).isSome = true := by
        rw [hE]
        rfl
      simp only [handleSaveInvoice, assignedProfileId, hE]
      exact jsFind_map_replace hsome rfl

/-- Undoing an invoice `u` and re-applying an invoice `v` with the same
vendor name and total is the identity on a profile collection in which the
first profile matching that vendor has count at least 1, spend at least
the total, last date equal to the invoice date, and every profile passes
the sweep predicate. -/
theorem undo_apply_cancel (P1 : List CustomerProfile) (u v : Invoice)
    (pid2 : String) (j : Nat) (q : CustomerProfile)
    (hv : u.vendorName = v.vendorName) (htot : u.total = v.total)
    (hfind : findIdxO (fun p => nameMatches p.name v.vendorName) P1 = some j)
    (hget : P1.get? j = some q)
    (hq1 : 1 ≤ q.invoiceCount) (hqT : v.total ≤ q.totalSpent)
    (hqD : q.lastInvoiceDate = v.date)
    (hK4 : ∀ p ∈ P1,
      (decide (0 < p.invoiceCount) || nameMatches p.name v.vendorName) = true) :
    sweep (applyStep (undoStep P1 u) v pid2).1 v = P1 := by
  have hfindu : findIdxO (fun p => nameMatches p.name u.vendorName) P1 = some j := by
    rw [hv]
    exact hfind
  have hundo : undoStep P1 u =
      modifyAt
        (fun p =>
          { p with
            invoiceCount := max 0 (p.invoiceCount - 1)
            totalSpent := max 0 (p.totalSpent - u.total) })
        j P1 := by
    unfold undoStep
    rw [hfindu]
  have hfind3 : findIdxO (fun p => nameMatches p.name v.vendorName)
      (modifyAt
        (fun p =>
          { p with
            invoiceCount := max 0 (p.invoiceCount - 1)
            totalSpent := max 0 (p.totalSpent - u.total) })
        j P1) = some j :=
    (@findIdxO_modifyAt _ (fun p => nameMatches p.name v.vendorName)
      (fun p =>
        { p with
          invoiceCount := max 0 (p.invoiceCount - 1)
          totalSpent := max 0 (p.totalSpent - u.total) })
      (fun z => rfl) j P1).trans hfind
  have happ : (applyStep (undoStep P1 u) v pid2).1 =
      modifyAt
        (fun p =>
          { p with
            invoiceCount := p.invoiceCount + 1
            totalSpent := p.totalSpent + v.total
            lastInvoiceDate := v.date })
        j
        (modifyAt
          (fun p =>
            { p with
              invoiceCount := max 0 (p.invoiceCount - 1)
              totalSpent := max 0 (p.totalSpent - u.total) })
          j P1) := by
    rw [hundo]
    simp [applyStep, hfind3]
  rw [happ, modifyAt_modifyAt]
  have hic : max 0 (q.invoiceCount - 1) + 1 = q.invoiceCount := by omega
  have hts : max 0 (q.totalSpent - u.total) + v.total = q.totalSpent := by
    rw [htot, max_eq_right (sub_nonneg.mpr hqT), sub_add_cancel]
  have hcomp :
      ({ q with
         invoiceCount := max 0 (q.invoiceCount - 1) + 1
         totalSpent := max 0 (q.totalSpent - u.total) + v.total
         lastInvoiceDate := v.date } : CustomerProfile) = q := by
    rw [hic, hts, ← hqD]
  rw [modifyAt_eq_self hget hcomp]
  show P1.filter _ = P1
  exact List.filter_eq_self.mpr hK4

/-! Claim theorems. -/

/-- C2: saving the same invoice twice in succession with no field changes
leaves the profile collection after the second save equal to the profile
collection after the first save (so every profile's totalSpent and
invoiceCount are unchanged): the undo step followed by the re-apply step
nets to the identity. The precondition that the aggregates are consistent
so the floors at 0 do not engage is rendered as: the invoice total and all
profile aggregates in the starting state are nonnegative. -/
theorem resave_is_identity_on_profiles (s : AppState) (inv : Invoice)
    (pid now pid2 now2 : String) (ht : 0 ≤ inv.total)
    (hc : ∀ p ∈ s.profiles, 0 ≤ p.invoiceCount ∧ 0 ≤ p.totalSpent) :
    (handleSaveInvoice (handleSaveInvoice s inv pid now) inv pid2 now2).profiles =
      (handleSaveInvoice s inv pid now).profiles := by
  obtain ⟨⟨j, q, hfind, hget, hq1, hqT, hqD⟩, hK4⟩ :=
    save_profiles_char s inv pid now hc ht
  have hK4' : ∀ p ∈ (handleSaveInvoice s inv pid now).profiles,
      (decide (0 < p.invoiceCount) || nameMatches p.name inv.vendorName) = true :=
    fun p hp => (hK4 p hp).1
  have hself := save_find_self s inv pid now
  have hred : (handleSaveInvoice (handleSaveInvoice s inv pid now) inv pid2 now2).profiles =
      sweep (applyStep (undoStep (handleSaveInvoice s inv pid now).profiles
        { inv with profileId := some (assignedProfileId s inv pid),
                   updatedAt := now }) inv pid2).1 inv := by
    conv =>
      lhs
      rw [handleSaveInvoice]
    rw [hself]
    rfl
  rw [hred]
  exact undo_apply_cancel (handleSaveInvoice s inv pid now).profiles
    { inv with profileId := some (assignedProfileId s inv pid), updatedAt := now }
    inv pid2 j q rfl rfl hfind hget hq1 hqT hqD hK4'

/-- Witness for the resave idempotence theorem at a concrete ledger. -/
theorem resave_is_identity_on_profiles_witness :
    ((0:Int) ≤ scenInvB.total ∧
      ∀ p ∈ sBoth.profiles, 0 ≤ p.invoiceCount ∧ 0 ≤ p.totalSpent) ∧
    (handleSaveInvoice (handleSaveInvoice sBoth scenInvB ("pb2") ("t2"))
        scenInvB ("pb3") ("t3")).profiles =
      (handleSaveInvoice sBoth scenInvB ("pb2") ("t2")).profiles :=
  ⟨⟨by decide, by decide⟩,
   resave_is_identity_on_profiles sBoth scenInvB ("pb2") ("t2") ("pb3") ("t3")
     (by decide) (by decide)⟩

/-- Every invoice in the collection after a save is either the stored copy
of the saved invoice (sharing its id, vendor, items, total and status) or
an invoice already present before the save. -/
theorem mem_save_invoices {s : AppState} {inv : Invoice} {pid now : String}
    {y : Invoice} (hy : y ∈ (handleSaveInvoice s inv pid now).invoices) :
    (y.id = inv.id ∧ y.vendorName = inv.vendorName ∧ y.items = inv.items ∧
      y.total = inv.total ∧ y.status = inv.status) ∨ y ∈ s.invoices := by
  have hform : (handleSaveInvoice s inv pid now).invoices =
      (match jsFind (fun i => i.id == inv.id) s.invoices with
       | some _ => s.invoices.map (fun i =>
           if i.id == inv.id then
             { inv with profileId := some (assignedProfileId s inv pid),
                        updatedAt := now }
           else i)
       | none =>
           { inv with profileId := some (assignedProfileId s inv pid),
                      updatedAt := now } :: s.invoices) := rfl
  rw [hform] at hy
  cases hE : jsFind (fun i => i.id == inv.id) s.invoices with
  | none =>
      rw [hE] at hy
      rcases List.mem_cons.mp hy with h1 | h2
      · subst h1
        exact Or.inl ⟨rfl, rfl, rfl, rfl, rfl⟩
      · exact Or.inr h2
  | some old =>
      rw [hE] at hy
      rcases List.mem_map.mp hy with ⟨a, ha, hay⟩
      by_cases hid : (a.id == inv.id) = true
      · rw [if_pos hid] at hay
        subst hay
        exact Or.inl ⟨rfl, rfl, rfl, rfl, rfl⟩
      · rw [if_neg hid] at hay
        subst hay
        exact Or.inr ha

/-- C3: after every save, every surviving profile has a positive invoice
count or matches the just-saved vendor name case-insensitively; no other
zero-count profile survives the sweep. -/
theorem save_sweeps_zero_count_profiles (s : AppState) (inv : Invoice)
    (pid now : String) :
    ∀ p ∈ (handleSaveInvoice s inv pid now).profiles,
      0 < p.invoiceCount ∨ nameMatches p.name inv.vendorName = true := by
  intro p hp
  have hform : (handleSaveInvoice s inv pid now).profiles =
      sweep ((applyStep (match jsFind (fun i => i.id == inv.id) s.invoices with
        | some old => undoStep s.profiles old
        | none => s.profiles) inv pid).1) inv := rfl
  rw [hform] at hp
  have h := (List.mem_filter.mp hp).2
  rcases (Bool.or_eq_true _ _).mp h with h1 | h2
  · exact Or.inl (of_decide_eq_true h1)
  · exact Or.inr h2

/-- Witness for the sweep invariant at a concrete save. -/
theorem save_sweeps_zero_count_profiles_witness :
    profAcme ∈ (handleSaveInvoice sEmpty scenInvA ("pa") ("t1")).profiles ∧
    (0 < profAcme.invoiceCount ∨ nameMatches profAcme.name scenInvA.vendorName = true) :=
  ⟨by decide,
   save_sweeps_zero_count_profiles sEmpty scenInvA ("pa") ("t1") profAcme (by decide)⟩

/-- C4: bulk delete removes exactly the invoices whose id is listed,
preserving the relative order of the rest, and leaves the profile
collection completely unchanged. -/
theorem bulkDelete_removes_only_matching (s : AppState) (ids : List String) :
    (handleBulkDelete s ids).profiles = s.profiles ∧
    List.Sublist (handleBulkDelete s ids).invoices s.invoices ∧
    (∀ i ∈ (handleBulkDelete s ids).invoices,
        i ∈ s.invoices ∧ ids.contains i.id = false) ∧
    (∀ i ∈ s.invoices, ids.contains i.id = false →
        i ∈ (handleBulkDelete s ids).invoices) := by
  refine ⟨rfl, List.filter_sublist s.invoices, ?_, ?_⟩
  · intro i hi
    have h := List.mem_filter.mp hi
    exact ⟨h.1, by simpa using h.2⟩
  · intro i hi hni
    exact List.mem_filter.mpr ⟨hi, by simpa using hni⟩

/-- Witness for the bulk-delete frame theorem at a concrete ledger. -/
theorem bulkDelete_removes_only_matching_witness :
    (handleBulkDelete sBoth ["Z"]).profiles = sBoth.profiles ∧
    (scenInvA ∈ sBoth.invoices ∧
      scenInvA ∈ (handleBulkDelete sBoth ["Z"]).invoices) :=
  ⟨(bulkDelete_removes_only_matching sBoth ["Z"]).1,
   by decide,
   (bulkDelete_removes_only_matching sBoth ["Z"]).2.2.2 scenInvA (by decide) (by decide)⟩

/-- C5: if every stored invoice satisfies total = sum of quantity * rate,
then after a save through the manual form path or through the capture
auto-save path, every stored invoice still satisfies it (both paths
recompute the total from the items before saving). -/
theorem saves_preserve_total_invariant (s : AppState)
    (hs : ∀ i ∈ s.invoices, i.total = itemsTotal i.items) :
    (∀ f fid pid now inv, formHandleSave f fid now = some inv →
        ∀ i ∈ (handleSaveInvoice s inv pid now).invoices,
          i.total = itemsTotal i.items) ∧
    (∀ pref res itemIds invId pid now,
        ∀ i ∈ (handleCapture s pref res itemIds invId pid now).1.invoices,
          i.total = itemsTotal i.items) := by
  constructor
  · intro f fid pid now inv hf i hi
    have hinv : inv.total = itemsTotal inv.items := by
      unfold formHandleSave at hf
      by_cases hv : formValidate f = true
      · rw [if_pos hv] at hf
        have hl := Option.some.inj hf
        rw [← hl]
      · rw [if_neg hv] at hf
        exact absurd hf (by simp)
    rcases mem_save_invoices hi with ⟨_, _, hit, htot, _⟩ | hmem
    · rw [htot, hit]
      exact hinv
    · exact hs i hmem
  · intro pref res itemIds invId pid now i hi
    cases res with
    | err m => exact hs i hi
    | ok data =>
        by_cases hval : validateInvoice (buildTemplate pref itemIds now data) = true
        · have hred : (handleCapture s pref (ExtractResult.ok data) itemIds invId pid now).1 =
              handleSaveInvoice s
                (draftToInvoice (buildTemplate pref itemIds now data) invId) pid now := by
            simp [handleCapture, hval]
          rw [hred] at hi
          rcases mem_save_invoices hi with ⟨_, _, hit, htot, _⟩ | hmem
          · rw [htot, hit]
            rfl
          · exact hs i hmem
        · have hred : (handleCapture s pref (ExtractResult.ok data) itemIds invId pid now).1 = s := by
            simp [handleCapture, hval]
          rw [hred] at hi
          exact hs i hi

/-- Witness for the total invariant at a concrete form save. -/
theorem saves_preserve_total_invariant_witness :
    (∀ i ∈ sBoth.invoices, i.total = itemsTotal i.items) ∧
    formHandleSave formNew ("F") ("t9") = some invNewForm ∧
    ({ invNewForm with profileId := some ("p"), updatedAt := "t9" } : Invoice).total =
      itemsTotal ({ invNewForm with profileId := some ("p"), updatedAt := "t9" } : Invoice).items :=
  ⟨by decide, by decide,
   (saves_preserve_total_invariant sBoth (by decide)).1 formNew ("F") ("p") ("t9")
     invNewForm (by decide) _ (by decide)⟩

/-- C10: the record actually stored by a save equals the input invoice on
every field except profileId (overwritten with the reconciler-assigned
profile id) and updatedAt (overwritten with the save time); any
caller-supplied profileId or updatedAt is ignored. -/
theorem save_overwrites_profileId_updatedAt (s : AppState) (inv : Invoice)
    (pid now : String) :
    (∃ st ∈ (handleSaveInvoice s inv pid now).invoices,
        st = { inv with profileId := some (assignedProfileId s inv pid),
                        updatedAt := now }) ∧
    (∀ pid2 u2,
        handleSaveInvoice s { inv with profileId := pid2, updatedAt := u2 } pid now =
          handleSaveInvoice s inv pid now) := by
  constructor
  · have hform : (handleSaveInvoice s inv pid now).invoices =
        (match jsFind (fun i => i.id == inv.id) s.invoices with
         | some _ => s.invoices.map (fun i =>
             if i.id == inv.id then
               { inv with profileId := some (assignedProfileId s inv pid),
                          updatedAt := now }
             else i)
         | none =>
             { inv with profileId := some (assignedProfileId s inv pid),
                        updatedAt := now } :: s.invoices) := rfl
    cases hE : jsFind (fun i => i.id == inv.id) s.invoices with
    | none =>
        refine ⟨{ inv with profileId := some (assignedProfileId s inv pid),
                           updatedAt := now }, ?_, rfl⟩
        rw [hform, hE]
        exact List.mem_cons_self _ _
    | some old =>
        obtain ⟨hpold, hmemold⟩ := jsFind_eq_some hE
        refine ⟨{ inv with profileId := some (assignedProfileId s inv pid),
                           updatedAt := now }, ?_, rfl⟩
        rw [hform, hE]
        refine List.mem_map.mpr ⟨old, hmemold, ?_⟩
        rw [if_pos hpold]
  · intro pid2 u2
    rfl

/-- C1 (amended: vendor matching is case-insensitive on the raw, untrimmed
name). For an update of an existing invoice whose vendor name differs from
the previous version's, the save (a) increments the matched new-vendor
profile's count by 1, adds the invoice total to its spend, sets its last
invoice date and reuses its id, or (b) creates a fresh profile with
count 1, spend and date from the invoice, and the fresh id, when no
profile matches; and (c) the profile matched by the previous vendor name
is decremented by 1 (floored at 0) on its count and by the previous total
(floored at 0) on its spend, surviving whenever the floored count stays
positive. Conjunct (d) is the concrete Acme/Beta scenario: after saving
invoice A (Acme, 100) and re-saving it as (Beta, 150), the undo step
leaves the Acme profile at (0, 0) and the final ledger holds exactly one
Beta profile with count 1 and spend 150. -/
theorem save_update_reconciliation (s : AppState) (inv : Invoice)
    (pid now : String) (old : Invoice) (j : Nat) (q : CustomerProfile)
    (hold : jsFind (fun i => i.id == inv.id) s.invoices = some old)
    (hfj : findIdxO (fun p => nameMatches p.name old.vendorName) s.profiles = some j)
    (hgj : s.profiles.get? j = some q)
    (hdiff : nameMatches old.vendorName inv.vendorName = false) :
    (∀ k r, findIdxO (fun p => nameMatches p.name inv.vendorName) s.profiles = some k →
        s.profiles.get? k = some r →
        ∃ r' ∈ (handleSaveInvoice s inv pid now).profiles,
          r'.id = r.id ∧ r'.name = r.name ∧
          r'.invoiceCount = r.invoiceCount + 1 ∧
          r'.totalSpent = r.totalSpent + inv.total ∧
          r'.lastInvoiceDate = inv.date) ∧
    (findIdxO (fun p => nameMatches p.name inv.vendorName) s.profiles = none →
        ({ id := pid, name := inv.vendorName, totalSpent := inv.total,
           invoiceCount := 1, lastInvoiceDate := inv.date } : CustomerProfile) ∈
          (handleSaveInvoice s inv pid now).profiles) ∧
    (0 < max 0 (q.invoiceCount - 1) →
        ∃ q' ∈ (handleSaveInvoice s inv pid now).profiles,
          q'.id = q.id ∧ q'.name = q.name ∧
          q'.invoiceCount = max 0 (q.invoiceCount - 1) ∧
          q'.totalSpent = max 0 (q.totalSpent - old.total)) ∧
    ((undoStep (handleSaveInvoice sEmpty scenInvA ("pa") ("t1")).profiles scenInvA).map
        (fun p => (p.name, p.invoiceCount, p.totalSpent)) = [("Acme", 0, 0)] ∧
      (handleSaveInvoice (handleSaveInvoice sEmpty scenInvA ("pa") ("t1"))
          scenInvB ("pb") ("t2")).profiles.map
        (fun p => (p.name, p.invoiceCount, p.totalSpent)) = [("Beta", 1, 150)]) := by
  obtain ⟨y0, hy0, hpy0⟩ := findIdxO_eq_some_get? hfj
  have hyq : y0 = q := by
    rw [hy0] at hgj
    exact Option.some.inj hgj
  subst hyq
  have hq_old : nameMatches y0.name old.vendorName = true := hpy0
  have h1 : lowerList y0.name = lowerList old.vendorName := eq_of_beq hq_old
  have h2 : lowerList old.vendorName ≠ lowerList inv.vendorName := by
    intro hcontra
    have : nameMatches old.vendorName inv.vendorName = true := by
      show (lowerList old.vendorName == lowerList inv.vendorName) = true
      rw [hcontra]
      exact beq_self_eq_true _
    rw [this] at hdiff
    exact Bool.true_eq_false.mp hdiff
  have hq_new : nameMatches y0.name inv.vendorName = false := by
    show (lowerList y0.name == lowerList inv.vendorName) = false
    rw [h1]
    exact beq_eq_false_iff_ne.mpr h2
  have hprof : (handleSaveInvoice s inv pid now).profiles =
      sweep ((applyStep (undoStep s.profiles old) inv pid).1) inv := by
    have h0 : (handleSaveInvoice s inv pid now).profiles =
        sweep ((applyStep (match jsFind (fun i => i.id == inv.id) s.invoices with
          | some o => undoStep s.profiles o
          | none => s.profiles) inv pid).1) inv := rfl
    rw [h0, hold]
  have hundo : undoStep s.profiles old =
      modifyAt
        (fun p =>
          { p with
            invoiceCount := max 0 (p.invoiceCount - 1)
            totalSpent := max 0 (p.totalSpent - old.total) })
        j s.profiles := by
    unfold undoStep
    rw [hfj]
  refine ⟨?_, ?_, ?_, by decide, by decide⟩
  · intro k r hk hr
    obtain ⟨y1, hy1, hpy1⟩ := findIdxO_eq_some_get? hk
    have hyr : y1 = r := by
      rw [hy1] at hr
      exact Option.some.inj hr
    subst hyr
    have hkj : k ≠ j := by
      intro hkeq
      subst hkeq
      rw [hy1] at hgj
      rw [Option.some.inj hgj] at hpy1
      rw [hpy1] at hq_new
      exact Bool.true_eq_false.mp hq_new
    have hfind2 : findIdxO (fun p => nameMatches p.name inv.vendorName)
        (undoStep s.profiles old) = some k := by
      rw [hundo]
      exact (@findIdxO_modifyAt _ (fun p => nameMatches p.name inv.vendorName)
        (fun p =>
          { p with
            invoiceCount := max 0 (p.invoiceCount - 1)
            totalSpent := max 0 (p.totalSpent - old.total) })
        (fun z => rfl) j s.profiles).trans hk
    have hget2 : (undoStep s.profiles old).get? k = some y1 := by
      rw [hundo]
      exact (get?_modifyAt_ne _ hkj s.profiles).trans hy1
    have happ : (applyStep (undoStep s.profiles old) inv pid).1 =
        modifyAt
          (fun p =>
            { p with
              invoiceCount := p.invoiceCount + 1
              totalSpent := p.totalSpent + inv.total
              lastInvoiceDate := inv.date })
          k (undoStep s.profiles old) := by
      simp [applyStep, hfind2]
    have hget3 : (modifyAt
        (fun p =>
          { p with
            invoiceCount := p.invoiceCount + 1
            totalSpent := p.totalSpent + inv.total
            lastInvoiceDate := inv.date })
        k (undoStep s.profiles old)).get? k =
        some { y1 with
               invoiceCount := y1.invoiceCount + 1
               totalSpent := y1.totalSpent + inv.total
               lastInvoiceDate := inv.date } := by
      rw [get?_modifyAt_self, hget2]
      rfl
    refine ⟨{ y1 with
              invoiceCount := y1.invoiceCount + 1
              totalSpent := y1.totalSpent + inv.total
              lastInvoiceDate := inv.date }, ?_, rfl, rfl, rfl, rfl, rfl⟩
    rw [hprof, happ]
    refine List.mem_filter.mpr ⟨List.get?_mem hget3, ?_⟩
    show (decide _ || nameMatches y1.name inv.vendorName) = true
    rw [hpy1]
    exact Bool.or_true _
  · intro hnone
    have hfind2 : findIdxO (fun p => nameMatches p.name inv.vendorName)
        (undoStep s.profiles old) = none := by
      rw [hundo]
      exact (@findIdxO_modifyAt _ (fun p => nameMatches p.name inv.vendorName)
        (fun p =>
          { p with
            invoiceCount := max 0 (p.invoiceCount - 1)
            totalSpent := max 0 (p.totalSpent - old.total) })
        (fun z => rfl) j s.profiles).trans hnone
    have happ : (applyStep (undoStep s.profiles old) inv pid).1 =
        undoStep s.profiles old ++
          [{ id := pid, name := inv.vendorName, totalSpent := inv.total,
             invoiceCount := 1, lastInvoiceDate := inv.date }] := by
      simp [applyStep, hfind2]
    rw [hprof, happ]
    refine List.mem_filter.mpr ⟨List.mem_append_right _ (List.mem_singleton.mpr rfl), ?_⟩
    show (decide ((0:Int) < 1) || _) = true
    rw [decide_eq_true (by norm_num : (0:Int) < 1)]
    exact Bool.true_or _
  · intro hcpos
    have hget_dec : (undoStep s.profiles old).get? j =
        some { y0 with
               invoiceCount := max 0 (y0.invoiceCount - 1)
               totalSpent := max 0 (y0.totalSpent - old.total) } := by
      rw [hundo, get?_modifyAt_self, hgj]
      rfl
    have hsurv : (decide
        (0 < ({ y0 with
                invoiceCount := max 0 (y0.invoiceCount - 1)
                totalSpent := max 0 (y0.totalSpent - old.total) } : CustomerProfile).invoiceCount) ||
        nameMatches ({ y0 with
                invoiceCount := max 0 (y0.invoiceCount - 1)
                totalSpent := max 0 (y0.totalSpent - old.total) } : CustomerProfile).name
          inv.vendorName) = true := by
      rw [decide_eq_true hcpos]
      exact Bool.true_or _
    cases hA2 : findIdxO (fun p => nameMatches p.name inv.vendorName)
        (undoStep s.profiles old) with
    | some k =>
        obtain ⟨y2, hy2, hpy2⟩ := findIdxO_eq_some_get? hA2
        have hjk : j ≠ k := by
          intro hjeq
          subst hjeq
          rw [hget_dec] at hy2
          rw [← Option.some.inj hy2] at hpy2
          have : nameMatches y0.name inv.vendorName = true := hpy2
          rw [this] at hq_new
          exact Bool.true_eq_false.mp hq_new
        have happ : (applyStep (undoStep s.profiles old) inv pid).1 =
            modifyAt
              (fun p =>
                { p with
                  invoiceCount := p.invoiceCount + 1
                  totalSpent := p.totalSpent + inv.total
                  lastInvoiceDate := inv.date })
              k (undoStep s.profiles old) := by
          simp [applyStep, hA2]
        have hget4 : (modifyAt
            (fun p =>
              { p with
                invoiceCount := p.invoiceCount + 1
                totalSpent := p.totalSpent + inv.total
                lastInvoiceDate := inv.date })
            k (undoStep s.profiles old)).get? j =
            some { y0 with
                   invoiceCount := max 0 (y0.invoiceCount - 1)
                   totalSpent := max 0 (y0.totalSpent - old.total) } := by
          rw [get?_modifyAt_ne _ hjk]
          exact hget_dec
        refine ⟨{ y0 with
                  invoiceCount := max 0 (y0.invoiceCount - 1)
                  totalSpent := max 0 (y0.totalSpent - old.total) }, ?_,
                rfl, rfl, rfl, rfl⟩
        rw [hprof, happ]
        exact List.mem_filter.mpr ⟨List.get?_mem hget4, hsurv⟩
    | none =>
        have happ : (applyStep (undoStep s.profiles old) inv pid).1 =
            undoStep s.profiles old ++
              [{ id := pid, name := inv.vendorName, totalSpent := inv.total,
                 invoiceCount := 1, lastInvoiceDate := inv.date }] := by
          simp [applyStep, hA2]
        refine ⟨{ y0 with
                  invoiceCount := max 0 (y0.invoiceCount - 1)
                  totalSpent := max 0 (y0.totalSpent - old.total) }, ?_,
                rfl, rfl, rfl, rfl⟩
        rw [hprof, happ]
        exact List.mem_filter.mpr
          ⟨List.mem_append_left _ (List.get?_mem hget_dec), hsurv⟩

/-- C1 counterexample to the claim as stated: vendor matching in
`handleSaveInvoice` does not trim. With a stored profile named with a
trailing space (count 1, spend 100), saving a new invoice for the same
vendor without the space should, per the claim (trimmed matching), reuse
that profile and increment it to count 2 with no new profile; the code
instead leaves it untouched and creates a second profile, yielding two
profiles of count 1. -/
theorem save_trimmed_matching_counterexample :
    trimStr ("Acme ") = "Acme" ∧
    nameMatches (trimStr ("Acme ")) ("Acme") = true ∧
    (handleSaveInvoice sTrail invTrim ("p2") ("t1")).profiles.map
        (fun p => (p.name, p.invoiceCount)) = [("Acme ", 1), ("Acme", 1)] :=
  ⟨by decide, by decide, by decide⟩

/-- Witness for the update reconciliation theorem: editing the stored Acme
invoice into a Beta invoice increments the existing Beta profile. -/
theorem save_update_reconciliation_witness :
    jsFind (fun i => i.id == scenInvB.id) sBoth.invoices = some scenInvA ∧
    ∃ r' ∈ (handleSaveInvoice sBoth scenInvB ("pc") ("t2")).profiles,
      r'.id = profBeta.id ∧ r'.name = profBeta.name ∧
      r'.invoiceCount = profBeta.invoiceCount + 1 ∧
      r'.totalSpent = profBeta.totalSpent + scenInvB.total ∧
      r'.lastInvoiceDate = scenInvB.date :=
  ⟨by decide,
   (save_update_reconciliation sBoth scenInvB ("pc") ("t2") scenInvA 0 profAcme
      (by decide) (by decide) (by decide) (by decide)).1 1 profBeta
     (by decide) (by decide)⟩

/-- The per-item check of `validateInvoice` fails exactly for an empty
description, a nonpositive quantity, or a negative rate. -/
theorem item_check_false_iff (it : InvoiceItem) :
    (it.description != "" && decide (0 < it.quantity) && decide (0 ≤ it.rate)) = false ↔
      it.description = "" ∨ it.quantity ≤ 0 ∨ it.rate < 0 := by
  rw [Bool.and_eq_false_iff, Bool.and_eq_false_iff]
  constructor
  · rintro ((h | h) | h)
    · left
      simpa using h
    · right
      left
      have := of_decide_eq_false h
      omega
    · right
      right
      have := of_decide_eq_false h
      omega
  · rintro (h | h | h)
    · left
      left
      simpa using h
    · left
      right
      exact decide_eq_false (by omega)
    · right
      exact decide_eq_false (by omega)

/-- The item sweep of `validateInvoice` over a list fails exactly when some
item fails the per-item check. -/
theorem items_all_false_iff (l : List InvoiceItem) :
    (l.all (fun it =>
        it.description != "" && decide (0 < it.quantity) && decide (0 ≤ it.rate)) = false) ↔
      ∃ it ∈ l, it.description = "" ∨ it.quantity ≤ 0 ∨ it.rate < 0 := by
  rw [List.all_eq_false]
  constructor
  · rintro ⟨it, hit, hbad⟩
    refine ⟨it, hit, ?_⟩
    rw [← item_check_false_iff]
    simpa using hbad
  · rintro ⟨it, hit, hbad⟩
    refine ⟨it, hit, ?_⟩
    have hfalse := (item_check_false_iff it).mpr hbad
    simp [hfalse]

/-- C6 (amended: an item description that is nonempty but whitespace-only
passes the item check, because the auto-save gate tests only truthiness of
the description, not its trimmed value). The auto-save validator returns
false exactly when: the vendor name is absent, empty or whitespace-only;
the date or due date is absent (missing or empty); the items are missing
or empty; or some item has an empty description, a nonpositive quantity,
or a negative rate. -/
theorem validateInvoice_false_iff (d : InvoiceDraft) :
    validateInvoice d = false ↔
      (trimBlank (d.vendorName.getD "") = true ∨
       (d.date = none ∨ d.date = some "") ∨
       (d.dueDate = none ∨ d.dueDate = some "") ∨
       (d.items = none ∨ d.items = some []) ∨
       (∃ l, d.items = some l ∧ ∃ it ∈ l,
          it.description = "" ∨ it.quantity ≤ 0 ∨ it.rate < 0)) := by
  rcases d with ⟨did, dvn, dpid, ddt, ddd, dits, dtot, dcat, dtags, dty, dcur, dst, dupd⟩
  cases dvn with
  | none =>
      constructor
      · intro _
        exact Or.inl (show trimBlank ((none : Option String).getD ("")) = true by decide)
      · intro _
        rfl
  | some v =>
      simp only [validateInvoice, Option.getD_some]
      by_cases hvb : (v == "" || trimBlank v) = true
      · have hbv : trimBlank v = true := by
          rcases (Bool.or_eq_true _ _).mp hvb with h | h
          · rw [eq_of_beq h]
            decide
          · exact h
        constructor
        · intro _
          exact Or.inl hbv
        · intro _
          simp [hvb]
      · rw [Bool.not_eq_true] at hvb
        obtain ⟨hve, hvt⟩ := Bool.or_eq_false_iff.mp hvb
        simp only [hvb, Bool.false_eq_true, if_false]
        by_cases hdt : ((ddt == none || ddt == some "") ||
            (ddd == none || ddd == some "")) = true
        · have hP : (ddt = none ∨ ddt = some "") ∨ (ddd = none ∨ ddd = some "") := by
            rcases (Bool.or_eq_true _ _).mp hdt with h | h
            · left
              rcases (Bool.or_eq_true _ _).mp h with h1 | h1
              · exact Or.inl (eq_of_beq h1)
              · exact Or.inr (eq_of_beq h1)
            · right
              rcases (Bool.or_eq_true _ _).mp h with h1 | h1
              · exact Or.inl (eq_of_beq h1)
              · exact Or.inr (eq_of_beq h1)
          constructor
          · intro _
            rcases hP with h | h
            · exact Or.inr (Or.inl h)
            · exact Or.inr (Or.inr (Or.inl h))
          · intro _
            simp [hdt]
        · rw [Bool.not_eq_true] at hdt
          obtain ⟨hd1, hd2⟩ := Bool.or_eq_false_iff.mp hdt
          obtain ⟨hd1a, hd1b⟩ := Bool.or_eq_false_iff.mp hd1
          obtain ⟨hd2a, hd2b⟩ := Bool.or_eq_false_iff.mp hd2
          have hdt1 : ddt ≠ none := by
            intro h
            rw [h] at hd1a
            simp at hd1a
          have hdt2 : ddt ≠ some "" := by
            intro h
            rw [h] at hd1b
            simp at hd1b
          have hdd1 : ddd ≠ none := by
            intro h
            rw [h] at hd2a
            simp at hd2a
          have hdd2 : ddd ≠ some "" := by
            intro h
            rw [h] at hd2b
            simp at hd2b
          simp only [hdt, Bool.false_eq_true, if_false]
          have hfalse : trimBlank v = true ↔ False := by simp [hvt]
          cases dits with
          | none =>
              constructor
              · intro _
                exact Or.inr (Or.inr (Or.inr (Or.inl (Or.inl rfl))))
              · intro _
                rfl
          | some l =>
              cases l with
              | nil =>
                  constructor
                  · intro _
                    exact Or.inr (Or.inr (Or.inr (Or.inl (Or.inr rfl))))
                  · intro _
                    rfl
              | cons a t =>
                  have hlen : (((a :: t).length == 0) = true) = False := by simp
                  simp only [hlen, if_false]
                  rw [items_all_false_iff]
                  constructor
                  · intro h
                    exact Or.inr (Or.inr (Or.inr (Or.inr ⟨a :: t, rfl, h⟩)))
                  · rintro (h | h | h | h | h)
                    · rw [h] at hvt
                      exact absurd hvt (by simp)
                    · rcases h with h | h
                      · exact absurd h hdt1
                      · exact absurd h hdt2
                    · rcases h with h | h
                      · exact absurd h hdd1
                      · exact absurd h hdd2
                    · rcases h with h | h
                      · exact absurd h (by simp)
                      · exact absurd (Option.some.inj h) (by simp)
                    · rcases h with ⟨lx, hlx, hex⟩
                      have hle : lx = a :: t := (Option.some.inj hlx).symm
                      subst hle
                      exact hex

/-- Witness for the validator characterization: a draft with an empty
items list is rejected. -/
theorem validateInvoice_false_iff_witness :
    validateInvoice draftEmptyItems = false ∧ draftEmptyItems.items = some [] :=
  ⟨(validateInvoice_false_iff draftEmptyItems).mpr
      (Or.inr (Or.inr (Or.inr (Or.inl (Or.inr rfl))))), rfl⟩

/-- C6 counterexample to the claim as stated: an item whose description is
whitespace-only (blank per the claim) does not make the auto-save
validator return false; the gate only rejects an empty description
string. -/
theorem validateInvoice_blank_description_counterexample :
    validateInvoice draftWSDesc = true ∧
    trimBlank (" ") = true ∧
    draftWSDesc.items =
      some [{ id := "i1", description := " ", quantity := 1, rate := 0 }] :=
  ⟨by decide, by decide, by decide⟩

/-- C7 (amended: only an absent or empty vendor name makes the extraction
call itself fail; a whitespace-only vendor name passes extraction but the
resulting draft fails the auto-save validation). In all three situations
the user is routed to manual entry, the ledger state is unmodified, and no
draft with a silently defaulted vendor name is produced: the error route
carries no vendor name at all and the whitespace route carries the
payload's own vendor name unchanged. -/
theorem extraction_vendor_handling :
    (∀ text p, (p.vendorName = none ∨ p.vendorName = some "") →
        ∃ m, extractInvoiceData text (some p) = ExtractResult.err m) ∧
    (∀ s pref m itemIds invId pid now,
        (handleCapture s pref (ExtractResult.err m) itemIds invId pid now).1 = s ∧
        ∃ dr, (handleCapture s pref (ExtractResult.err m) itemIds invId pid now).2 =
            AfterCapture.editing dr ∧ dr.vendorName = none) ∧
    (∀ s pref p itemIds invId pid now w,
        p.vendorName = some w → trimBlank w = true →
        (handleCapture s pref (ExtractResult.ok p) itemIds invId pid now).1 = s ∧
        ∃ dr, (handleCapture s pref (ExtractResult.ok p) itemIds invId pid now).2 =
            AfterCapture.editing dr ∧ dr.vendorName = some w) := by
  refine ⟨?_, ?_, ?_⟩
  · intro text p hp
    have hcond : (p.vendorName == none || p.vendorName == some ("")) = true := by
      rcases hp with h | h <;> simp [h]
    by_cases htext : (match text with
        | none => true
        | some t => trimBlank t) = true
    · exact ⟨("OCR Failed: No readable content found. Please ensure the invoice is centered and legible."),
        by simp [extractInvoiceData, htext]⟩
    · rw [Bool.not_eq_true] at htext
      exact ⟨("Analysis failed: The invoice layout was too complex to parse automatically. Manual entry is required."),
        by simp [extractInvoiceData, htext, hcond]⟩
  · intro s pref m itemIds invId pid now
    exact ⟨rfl, ⟨{ status := some InvoiceStatus.UNPAID, currency := some pref }, rfl, rfl⟩⟩
  · intro s pref p itemIds invId pid now w hw hwt
    have hvend : (buildTemplate pref itemIds now p).vendorName = some w := by
      simp [buildTemplate, hw]
    have hval : validateInvoice (buildTemplate pref itemIds now p) = false := by
      unfold validateInvoice
      rw [hvend]
      simp [hwt]
    refine ⟨?_, ⟨buildTemplate pref itemIds now p, ?_, hvend⟩⟩
    · simp [handleCapture, hval]
    · simp [handleCapture, hval]

/-- C7 counterexample to the claim as stated: a payload whose vendor name
is whitespace-only does not make the extraction step fail; it is returned
as a successful payload (the recovery happens later, at the validation
gate). -/
theorem extraction_whitespace_vendor_counterexample :
    extractInvoiceData (some ("scan")) (some payloadWS) = ExtractResult.ok payloadWS ∧
    payloadWS.vendorName = some (" ") ∧ trimBlank (" ") = true :=
  ⟨by decide, by decide, by decide⟩

/-- Witness for the extraction handling theorem at a concrete whitespace
vendor payload. -/
theorem extraction_vendor_handling_witness :
    (payloadWS.vendorName = some (" ") ∧ trimBlank (" ") = true) ∧
    (handleCapture sBoth ("INR") (ExtractResult.ok payloadWS)
        (fun _ => "it") ("I9") ("p9") ("t9")).1 = sBoth :=
  ⟨⟨by decide, by decide⟩,
   (extraction_vendor_handling.2.2 sBoth ("INR") payloadWS (fun _ => "it")
      ("I9") ("p9") ("t9") (" ") (by decide) (by decide)).1⟩

theorem get?_map_eq (f : α → β) (l : List α) (n : Nat) :
    (l.map f).get? n = (l.get? n).map f := by
  induction l generalizing n with
  | nil => simp
  | cons x xs ih => cases n <;> simp [ih]

theorem withIdx_get? (n : Nat) (l : List α) (i : Nat) :
    (withIdx n l).get? i = (l.get? i).map (fun a => (n + i, a)) := by
  induction l generalizing n i with
  | nil => simp [withIdx]
  | cons x xs ih =>
      cases i with
      | zero => simp [withIdx]
      | succ m =>
          simp only [withIdx, List.get?_cons_succ, ih (n + 1) m, Nat.add_succ,
            Nat.succ_add]

theorem withIdx_length (n : Nat) (l : List α) : (withIdx n l).length = l.length := by
  induction l generalizing n with
  | nil => rfl
  | cons x xs ih => simp [withIdx, ih]

theorem withIdx_fst_ge {m : Nat} {l : List α} :
    ∀ pr ∈ withIdx m l, m ≤ pr.1 := by
  induction l generalizing m with
  | nil => simp [withIdx]
  | cons x xs ih =>
      intro pr hpr
      rcases List.mem_cons.mp hpr with h | h
      · subst h
        exact le_refl m
      · have := ih pr h
        omega

theorem withIdx_map_ids_nodup (ids : Nat → String)
    (hinj : Function.Injective ids) (m : Nat) (l : List RawItem) :
    ((withIdx m l).map (fun pr => ids pr.1)).Nodup := by
  induction l generalizing m with
  | nil => simp [withIdx]
  | cons x xs ih =>
      simp only [withIdx, List.map_cons, List.nodup_cons]
      refine ⟨?_, ih (m + 1)⟩
      intro hmem
      rcases List.mem_map.mp hmem with ⟨pr, hpr, heq⟩
      have h1 : m + 1 ≤ pr.1 := withIdx_fst_ge pr hpr
      have h2 : pr.1 = m := hinj heq
      omega

/-- C8 (amended: an empty-but-present description, category or currency is
treated like an absent one, because the normalizer tests JS truthiness).
The normalizer copies the vendor name, dates, currency, category and tags
exactly when they are present and nonempty, recomputes the total from the
formatted items, gives every item the freshly generated id for its index
(pairwise distinct when the generator is injective), copies item fields
that are present (with nonzero quantity and nonempty description), applies
the documented defaults otherwise, and forces status UNPAID and type
expense. -/
theorem buildTemplate_normalization (pref : String) (itemIds : Nat → String)
    (now : String) (p : RawPayload) :
    (buildTemplate pref itemIds now p).vendorName = p.vendorName ∧
    (buildTemplate pref itemIds now p).date = p.date ∧
    (buildTemplate pref itemIds now p).dueDate = p.dueDate ∧
    (∀ c, p.currency = some c → c ≠ "" →
        (buildTemplate pref itemIds now p).currency = some c) ∧
    ((p.currency = none ∨ p.currency = some "") →
        (buildTemplate pref itemIds now p).currency = some pref) ∧
    (∀ g, p.category = some g → g ≠ "" →
        (buildTemplate pref itemIds now p).category = some g) ∧
    ((p.category = none ∨ p.category = some "") →
        (buildTemplate pref itemIds now p).category = some ("General")) ∧
    (∀ ts, p.tags = some ts → (buildTemplate pref itemIds now p).tags = some ts) ∧
    (p.tags = none → (buildTemplate pref itemIds now p).tags = some []) ∧
    (buildTemplate pref itemIds now p).status = some InvoiceStatus.UNPAID ∧
    (buildTemplate pref itemIds now p).type = some EntryType.expense ∧
    (∃ fitems, (buildTemplate pref itemIds now p).items = some fitems ∧
      (buildTemplate pref itemIds now p).total = some (itemsTotal fitems) ∧
      fitems.length = p.items.length ∧
      (∀ i it, p.items.get? i = some it →
        ∃ fit, fitems.get? i = some fit ∧ fit.id = itemIds i ∧
          (it.description ≠ none → it.description ≠ some "" →
              fit.description = it.description.getD "") ∧
          ((it.description = none ∨ it.description = some "") →
              fit.description = "Item") ∧
          (it.quantity ≠ none → it.quantity ≠ some 0 →
              fit.quantity = it.quantity.getD 0) ∧
          ((it.quantity = none ∨ it.quantity = some 0) → fit.quantity = 1) ∧
          (it.rate ≠ none → fit.rate = it.rate.getD 0) ∧
          (it.rate = none → fit.rate = 0)) ∧
      (Function.Injective itemIds → (fitems.map (fun it => it.id)).Nodup)) := by
  refine ⟨rfl, rfl, rfl, ?_, ?_, ?_, ?_, ?_, ?_, rfl, rfl, ?_⟩
  · intro c hc hcne
    simp [buildTemplate, hc, beq_eq_false_iff_ne.mpr hcne]
  · rintro (h | h) <;> simp [buildTemplate, h]
  · intro g hg hgne
    simp [buildTemplate, hg, beq_eq_false_iff_ne.mpr hgne]
  · rintro (h | h) <;> simp [buildTemplate, h]
  · intro ts hts
    simp [buildTemplate, hts]
  · intro hts
    simp [buildTemplate, hts]
  · refine ⟨formattedItems itemIds p.items, rfl, rfl, ?_, ?_, ?_⟩
    · simp [formattedItems, withIdx_length]
    · intro i it hit
      have hg : (formattedItems itemIds p.items).get? i =
          some (formatItem itemIds (0 + i) it) := by
        unfold formattedItems
        rw [get?_map_eq, withIdx_get?, hit]
        rfl
      rw [Nat.zero_add] at hg
      refine ⟨formatItem itemIds i it, hg, rfl, ?_, ?_, ?_, ?_, ?_, ?_⟩
      · intro h1 h2
        cases hd : it.description with
        | none => exact absurd hd h1
        | some ds =>
            rw [hd] at h2
            have : ds ≠ "" := fun hh => h2 (by rw [hh])
            simp [formatItem, hd, beq_eq_false_iff_ne.mpr this]
      · rintro (h | h) <;> simp [formatItem, h]
      · intro h1 h2
        cases hq : it.quantity with
        | none => exact absurd hq h1
        | some qv =>
            rw [hq] at h2
            have : qv ≠ 0 := fun hh => h2 (by rw [hh])
            simp [formatItem, hq, beq_eq_false_iff_ne.mpr this]
      · rintro (h | h) <;> simp [formatItem, h]
      · intro h1
        cases hr : it.rate with
        | none => exact absurd hr h1
        | some rv => simp [formatItem, hr]
      · intro h
        simp [formatItem, h]
    · intro hinj
      unfold formattedItems
      rw [List.map_map]
      exact withIdx_map_ids_nodup itemIds hinj 0 p.items

/-- C8 counterexample to the claim as stated: an item description that is
present but empty is not copied exactly; the normalizer replaces it with
the placeholder "Item". -/
theorem normalizer_empty_description_counterexample :
    payloadEmptyDesc.items =
      [{ description := some (""), quantity := some 2, rate := some 3 }] ∧
    (buildTemplate ("INR") (fun _ => "id0") ("t") payloadEmptyDesc).items =
      some [{ id := "id0", description := "Item", quantity := 2, rate := 3 }] ∧
    (buildTemplate ("INR") (fun _ => "id0") ("t") payloadEmptyDesc).items ≠
      some [{ id := "id0", description := "", quantity := 2, rate := 3 }] :=
  ⟨by decide, by decide, by decide⟩

/-- Witness for the normalization theorem at a fully populated payload. -/
theorem buildTemplate_normalization_witness :
    (payloadFull.currency = some ("USD") ∧
      (buildTemplate ("INR") (fun _ => "id0") ("t") payloadFull).currency =
        some ("USD")) ∧
    (buildTemplate ("INR") (fun _ => "id0") ("t") payloadFull).vendorName =
      some ("Vendor") :=
  ⟨⟨by decide,
    (buildTemplate_normalization ("INR") (fun _ => "id0") ("t") payloadFull).2.2.2.1
      ("USD") (by decide) (by decide)⟩,
   (buildTemplate_normalization ("INR") (fun _ => "id0") ("t") payloadFull).1⟩

/-- C9: once an invoice is stored PAID, none of the exposed ledger
operations stores an invoice with that id as UNPAID. The form save carries
the stored status forward (the form never exposes a status control and
loads its status from the stored invoice, captured by the hypothesis on
`initId`), fresh ids are assumed not to collide with stored ids, capture
auto-saves only brand-new ids, bulk delete only removes, and bulk
mark-paid only sets PAID. The final conjunct records that every stored
status is PAID or UNPAID, so OVERDUE is never a stored value. -/
theorem paid_invoices_stay_paid (s : AppState) (x : Invoice)
    (hx : x ∈ s.invoices) (hpaid : x.status = InvoiceStatus.PAID)
    (hnd : (s.invoices.map (fun i => i.id)).Nodup) :
    (∀ ids y, y ∈ (handleBulkDelete s ids).invoices → y.id = x.id →
        y.status = InvoiceStatus.PAID) ∧
    (∀ ids now y, y ∈ (handleBulkMarkPaid s ids now).invoices → y.id = x.id →
        y.status = InvoiceStatus.PAID) ∧
    (∀ f fid pid now y,
        (∀ i, f.initId = some i → i = x.id → f.status = InvoiceStatus.PAID) →
        fid ≠ x.id →
        y ∈ (formSaveOp s f fid pid now).invoices → y.id = x.id →
        y.status = InvoiceStatus.PAID) ∧
    (∀ pref res itemIds invId pid now y,
        invId ∉ s.invoices.map (fun i => i.id) →
        y ∈ (handleCapture s pref res itemIds invId pid now).1.invoices →
        y.id = x.id → y.status = InvoiceStatus.PAID) ∧
    (∀ y, y ∈ s.invoices →
        y.status = InvoiceStatus.PAID ∨ y.status = InvoiceStatus.UNPAID) := by
  have huniq : ∀ y ∈ s.invoices, y.id = x.id → y.status = InvoiceStatus.PAID := by
    intro y hy hid
    rw [mem_id_unique hnd hy hx hid]
    exact hpaid
  refine ⟨?_, ?_, ?_, ?_, ?_⟩
  · intro ids y hy hid
    exact huniq y (List.mem_filter.mp hy).1 hid
  · intro ids now y hy hid
    rcases List.mem_map.mp hy with ⟨a, ha, hay⟩
    by_cases hc : ids.contains a.id = true
    · rw [if_pos hc] at hay
      subst hay
      rfl
    · rw [if_neg hc] at hay
      subst hay
      exact huniq a ha hid
  · intro f fid pid now y hinit hfid hy hid
    unfold formSaveOp at hy
    cases hF : formHandleSave f fid now with
    | none =>
        rw [hF] at hy
        exact huniq y hy hid
    | some inv =>
        rw [hF] at hy
        rcases mem_save_invoices hy with ⟨hyid, _, _, _, hys⟩ | hmem
        · unfold formHandleSave at hF
          by_cases hv : formValidate f = true
          · rw [if_pos hv] at hF
            have hlit := Option.some.inj hF
            have hstat : inv.status = f.status := by
              rw [← hlit]
            have hidv : inv.id =
                (match f.initId with
                 | some i => if i == "" then fid else i
                 | none => fid) := by
              rw [← hlit]
            have hinvx : inv.id = x.id := hyid.symm.trans hid
            cases hI : f.initId with
            | none =>
                rw [hI] at hidv
                have hidv2 : inv.id = fid := hidv
                exact absurd (hidv2.symm.trans hinvx) hfid
            | some i0 =>
                rw [hI] at hidv
                have hidv2 : inv.id = if (i0 == "") = true then fid else i0 := hidv
                by_cases hie : (i0 == "") = true
                · rw [if_pos hie] at hidv2
                  exact absurd (hidv2.symm.trans hinvx) hfid
                · rw [if_neg hie] at hidv2
                  have hi0 : i0 = x.id := hidv2.symm.trans hinvx
                  rw [hys, hstat]
                  exact hinit i0 hI hi0
          · rw [if_neg hv] at hF
            exact absurd hF (by simp)
        · exact huniq y hmem hid
  · intro pref res itemIds invId pid now y hfresh hy hid
    cases res with
    | err m => exact huniq y hy hid
    | ok data =>
        by_cases hval : validateInvoice (buildTemplate pref itemIds now data) = true
        · have hred : (handleCapture s pref (ExtractResult.ok data)
              itemIds invId pid now).1 =
              handleSaveInvoice s
                (draftToInvoice (buildTemplate pref itemIds now data) invId) pid now := by
            simp [handleCapture, hval]
          rw [hred] at hy
          rcases mem_save_invoices hy with ⟨hyid, _, _, _, _⟩ | hmem
          · have hxin : x.id ∈ s.invoices.map (fun i => i.id) :=
              List.mem_map_of_mem _ hx
            have hinvid : invId = x.id := hyid.symm.trans hid
            exact absurd (hinvid ▸ hxin) hfresh
          · exact huniq y hmem hid
        · have hred : (handleCapture s pref (ExtractResult.ok data)
              itemIds invId pid now).1 = s := by
            simp [handleCapture, hval]
          rw [hred] at hy
          exact huniq y hy hid
  · intro y hy
    cases y.status with
    | PAID => exact Or.inl rfl
    | UNPAID => exact Or.inr rfl

/-- Witness for the paid-stays-paid theorem: re-saving the paid invoice
through the edit form keeps it PAID. -/
theorem paid_invoices_stay_paid_witness :
    ({ scenInvA with status := InvoiceStatus.PAID } : Invoice) ∈ sPaid.invoices ∧
    invPaidStored ∈ (formSaveOp sPaid formEditA ("F2") ("p9") ("t5")).invoices ∧
    invPaidStored.status = InvoiceStatus.PAID :=
  ⟨by decide, by decide,
   (paid_invoices_stay_paid sPaid { scenInvA with status := InvoiceStatus.PAID }
      (by decide) (by decide) (by decide)).2.2.1 formEditA ("F2") ("p9") ("t5")
     invPaidStored (by intro i h1 h2; decide) (by decide) (by decide) (by decide)⟩

end Ledger
